import Mathlib

/-!
Verification development for the link-dl downloader.

The Go source (`main.go`) is embedded shallowly:

* Go strings are byte sequences, modelled as `List Nat` (`GoStr`).  All the
  character classes the program manipulates (`< > : " / \ | ? *`, control
  characters, ASCII whitespace, `.`, `_`, `/`) are single ASCII bytes, and in
  valid UTF-8 no byte of a multi-byte rune falls in the ASCII range, so the
  byte-level model of the regex replacements, trims and length checks agrees
  with Go's rune-level behaviour; `len` and slicing in Go are byte-based and
  are modelled exactly.
* External libraries (net/http, net/url, goquery, regexp) are oracles: the
  model takes their outcomes (response status, parsed anchors, URL resolution,
  compiled pattern) as explicit parameters, while everything computed in
  `main.go` itself is translated function by function.
* The filesystem directory is a finite list of file names; `os.Stat` existence
  checks become list membership.  Fallible Go code (a `panic` or an `error`
  return) is modelled with `Option`/`Except`.
-/

/-- A Go string, as its byte sequence. -/
abbrev GoStr := List Nat

/-- Byte string of an ASCII literal (for ASCII, code points are the bytes). -/
def goStr (s : String) : GoStr := s.data.map Char.toNat

/-- ASCII lowering, the byte-level behaviour of `strings.ToLower` on ASCII. -/
def asciiLower (s : GoStr) : GoStr :=
  s.map (fun b => if 65 ≤ b ∧ b ≤ 90 then b + 32 else b)

/-- ASCII whitespace bytes recognised by `strings.TrimSpace` (the non-ASCII
whitespace code points of `unicode.IsSpace` have no single-byte encoding). -/
def isGoSpace (b : Nat) : Bool :=
  b == 9 || b == 10 || b == 11 || b == 12 || b == 13 || b == 32

/-- `strings.TrimSpace`: drop leading and trailing whitespace. -/
def goTrimSpace (s : GoStr) : GoStr :=
  ((s.dropWhile isGoSpace).reverse.dropWhile isGoSpace).reverse

/-- The character class `[<>:"/\\|?*\x00-\x1f]` of `sanitizeFilename`. -/
def isForbidden (b : Nat) : Bool :=
  b == 60 || b == 62 || b == 58 || b == 34 || b == 47 || b == 92 ||
  b == 124 || b == 63 || b == 42 || decide (b ≤ 31)

/-- The character class `[\s_]` (Go's `\s` is `[\t\n\f\r ]`, plus `_`). -/
def wsUnd (b : Nat) : Bool :=
  b == 9 || b == 10 || b == 12 || b == 13 || b == 32 || b == 95

/-- `regexp [\s_]+ -> "_"`: each maximal run of whitespace/underscore bytes is
replaced by a single `_` (byte 95). -/
def collapse : GoStr → GoStr
  | [] => []
  | [b] => if wsUnd b then [95] else [b]
  | a :: b :: rest =>
    if wsUnd a && wsUnd b then collapse (b :: rest)
    else (if wsUnd a then 95 else a) :: collapse (b :: rest)

/-- The cutset `" ._"` of the final `strings.Trim`. -/
def isTrimCut (b : Nat) : Bool := b == 32 || b == 46 || b == 95

/-- `strings.Trim(name, " ._")`. -/
def goTrim (s : GoStr) : GoStr :=
  ((s.dropWhile isTrimCut).reverse.dropWhile isTrimCut).reverse

/-- Helper for `filepath.Ext`: length of the extension, scanning the reversed
string for the first `.` (46) before any path separator `/` (47). -/
def extLenRev : GoStr → Nat
  | [] => 0
  | b :: rest =>
    if b == 47 then 0
    else if b == 46 then 1
    else match extLenRev rest with
      | 0 => 0
      | n + 1 => n + 2

/-- Byte length of `filepath.Ext s`. -/
def goExtLen (s : GoStr) : Nat := extLenRev s.reverse

/-- `filepath.Ext`: the suffix beginning at the final dot of the final path
element, empty if there is none. -/
def goExt (s : GoStr) : GoStr := s.drop (s.length - goExtLen s)

/-- `strings.TrimSuffix(name, filepath.Ext(name))`: the name without its
extension (`filepath.Ext` always returns a literal suffix). -/
def goStem (s : GoStr) : GoStr := s.take (s.length - goExtLen s)

/-- `filepath.Base(path)`: last element after stripping trailing slashes;
`"."` for the empty path, `"/"` if the path is all slashes. -/
def goBase (p : GoStr) : GoStr :=
  if p = [] then [46]
  else
    let q := (p.reverse.dropWhile (fun b => b == 47)).reverse
    if q = [] then [47]
    else (q.reverse.takeWhile (fun b => !(b == 47))).reverse

/-- The literal fallback name `unnamed`. -/
def unnamedName : GoStr := goStr "unnamed"

/-- `sanitizeFilename` (main.go:246).  Returns `none` exactly when the Go code
panics: with `len(name) > 200` and `len(ext) > 200` the slice expression
`name[:200-len(ext)]` has a negative bound, which is a runtime panic. -/
def sanitizeFilename (name : GoStr) : Option GoStr :=
  let n1 := name.map (fun b => if isForbidden b then 95 else b)
  let n2 := collapse n1
  let n3 := goTrim n2
  let trunc : Option GoStr :=
    if 200 < n3.length then
      if 200 < goExtLen n3 then none
      else some (n3.take (200 - goExtLen n3) ++ n3.drop (n3.length - goExtLen n3))
    else some n3
  trunc.map (fun n4 => if n4 = [] then unnamedName else n4)

/-- Decimal digit bytes of `n`, with explicit fuel (the recursion of
`fmt.Sprintf("%d", n)`; fuel `n + 1` always suffices). -/
def natBytesAux : Nat → Nat → GoStr
  | 0, _ => []
  | fuel + 1, n =>
    if n < 10 then [48 + n]
    else natBytesAux fuel (n / 10) ++ [48 + n % 10]

/-- Decimal representation of `n` as a byte string. -/
def natBytes (n : Nat) : GoStr := natBytesAux (n + 1) n

/-- Value of a decimal byte string (left fold), inverse of `natBytes`. -/
def bytesVal (s : GoStr) : Nat := s.foldl (fun a b => 10 * a + (b - 48)) 0

/-- `fmt.Sprintf("%s_%d%s", nameWithoutExt, i, ext)` (main.go:333). -/
def suffixName (stem : GoStr) (i : Nat) (ext : GoStr) : GoStr :=
  stem ++ 95 :: natBytes i ++ ext

/-- The unbounded numbered search of `getUniqueFilename` (main.go:332): try
`{stem}_{i}{ext}` for increasing `i` until a name refers to no existing file.
The Go loop has no bound; the model carries explicit fuel, and
`searchLoop_succeeds` shows fuel `dir.length + 1` always finds a free name. -/
def searchLoop (dir : List GoStr) (stem ext : GoStr) : Nat → Nat → Option GoStr
  | 0, _ => none
  | fuel + 1, i =>
    let newName := suffixName stem i ext
    if dir.contains newName then searchLoop dir stem ext fuel (i + 1)
    else some newName

/-- The counter update `usedNames[base] = count + 1` on the Go map (absent
keys read as 0). -/
def bump (used : GoStr → Nat) (base : GoStr) : GoStr → Nat :=
  fun s => if s = base then used base + 1 else used s

/-- `getUniqueFilename` (main.go:316): `dir` is the set of file names present
in the output directory at the time of the check, `used` the in-memory
counter map.  Returns the chosen name and the updated map. -/
def getUniqueFilename (dir : List GoStr) (name : GoStr) (used : GoStr → Nat) :
    GoStr × (GoStr → Nat) :=
  let ext := goExt name
  let stem := goStem name
  let count := used name
  let used' := bump used name
  if count == 0 && !(dir.contains name) then (name, used')
  else ((searchLoop dir stem ext (dir.length + 1) (count + 1)).getD name, used')

/-- A sequence of allocation requests served under the mutex (main.go:293),
against a fixed on-disk directory listing: in-flight downloads have not yet
created their files, so the listing does not change between requests. -/
def allocRun (dir : List GoStr) : List GoStr → (GoStr → Nat) → List GoStr
  | [], _ => []
  | n :: rest, used =>
    let p := getUniqueFilename dir n used
    p.1 :: allocRun dir rest p.2

/-- A resolved URL, exposing the two views the code reads: `linkURL.String()`
and `linkURL.Path`. -/
structure GoURL where
  full : GoStr
  path : GoStr
deriving DecidableEq

/-- An element matched by `doc.Find("a[href]")`: its `href` attribute and its
visible text `s.Text()`. -/
structure Anchor where
  href : GoStr
  text : GoStr
deriving DecidableEq

/-- `FileLink` (main.go:19). -/
structure FileLink where
  name : GoStr
  url : GoStr
deriving DecidableEq

/-- The filter data extracted from `Config`: `--all`, the processed `--ext`
list, and the compiled include pattern (a match predicate on the resolved
URL; `none` when `--include` is unset). -/
structure Criteria where
  all : Bool
  exts : List GoStr
  includeMatch : Option (GoStr → Bool)

/-- The 25 alternatives of `fileExtPattern` (main.go:177). -/
def knownExts : List GoStr :=
  [goStr "pdf", goStr "doc", goStr "docx", goStr "xls", goStr "xlsx",
   goStr "xlsm", goStr "ppt", goStr "pptx", goStr "csv", goStr "txt",
   goStr "zip", goStr "rar", goStr "7z", goStr "tar", goStr "gz",
   goStr "jpg", goStr "jpeg", goStr "png", goStr "gif", goStr "svg",
   goStr "mp3", goStr "mp4", goStr "wav", goStr "avi", goStr "mov"]

/-- `fileExtPattern.MatchString(path)`: the anchored case-insensitive regex
holds exactly when the lowered path ends in `.` followed by one of the
alternatives. -/
def knownExtMatch (path : GoStr) : Bool :=
  knownExts.any (fun e => (46 :: e).isSuffixOf (asciiLower path))

/-- The `--ext` processing of `parseFlags` (main.go:89): split on commas, trim
space, strip one leading dot, drop empties, lower-case, prepend a dot. -/
def parseExts (s : GoStr) : List GoStr :=
  (s.splitOn 44).filterMap (fun e =>
    let e1 := goTrimSpace e
    let e2 := if (goStr ".").isPrefixOf e1 then e1.drop 1 else e1
    if e2 = [] then none else some (46 :: asciiLower e2))

/-- The href guards and URL resolution step (main.go:181): skip empty,
fragment-only and `javascript:` hrefs, then resolve against the base URL
(`resolve` is the `baseURL.Parse` oracle; `none` means resolution failed and
the link is skipped). -/
def anchorURL (resolve : GoStr → Option GoURL) (a : Anchor) : Option GoURL :=
  if a.href = [] ∨ (goStr "#").isPrefixOf a.href ∨
      (goStr "javascript:").isPrefixOf a.href then none
  else resolve a.href

/-- The extension and include-pattern filters (main.go:197): in `--all` mode
match `fileExtPattern` on the path, otherwise compare the lowered extension
against the `--ext` list; then the include pattern on the full URL. -/
def passFilter (crit : Criteria) (u : GoURL) : Bool :=
  (if crit.all then knownExtMatch u.path
   else crit.exts.contains (asciiLower (goExt u.path))) &&
  (match crit.includeMatch with
   | none => true
   | some m => m u.full)

/-- Name derivation (main.go:226): trimmed anchor text, falling back to the
URL's base path segment, sanitized, with the detected extension appended when
missing.  `none` when `sanitizeFilename` panics. -/
def deriveName (a : Anchor) (u : GoURL) : Option GoStr :=
  let ext := asciiLower (goExt u.path)
  let raw := goTrimSpace a.text
  let base := if raw = [] then goBase u.path else raw
  (sanitizeFilename base).map (fun nm =>
    if !(ext.isSuffixOf (asciiLower nm)) && !(ext == []) then nm ++ ext else nm)

/-- One iteration of the `doc.Find(...).Each` body for anchor `a`, given the
set of resolved URLs accepted so far.  `none` = the program panics;
`some none` = the anchor is skipped; `some (some l)` = candidate `l` is
appended (and `l.url` must be added to `seen`). -/
def processAnchor (resolve : GoStr → Option GoURL) (crit : Criteria)
    (a : Anchor) (seen : List GoStr) : Option (Option FileLink) :=
  match anchorURL resolve a with
  | none => some none
  | some u =>
    if u.full ∈ seen then some none
    else if passFilter crit u then
      match deriveName a u with
      | none => none
      | some nm => some (some ⟨nm, u.full⟩)
    else some none

/-- The anchor loop of `extractLinks` (main.go:179), after the page has been
fetched and parsed: fold over the anchors threading the `seen` set.  `none`
when a name derivation panics. -/
def extractCore (resolve : GoStr → Option GoURL) (crit : Criteria) :
    List Anchor → List GoStr → Option (List FileLink)
  | [], _ => some []
  | a :: rest, seen =>
    match processAnchor resolve crit a seen with
    | none => none
    | some none => extractCore resolve crit rest seen
    | some (some l) =>
      (extractCore resolve crit rest (l.url :: seen)).map (fun ls => l :: ls)

/-- The candidate an anchor would contribute ignoring deduplication (the
panic of name derivation papered over with `[]`; deduplication discards the
name of every non-first occurrence anyway).  Used to state first-wins. -/
def totalCandidate (resolve : GoStr → Option GoURL) (crit : Criteria)
    (a : Anchor) : Option FileLink :=
  match anchorURL resolve a with
  | none => none
  | some u =>
    if passFilter crit u then some ⟨(deriveName a u).getD [], u.full⟩
    else none

/-- Keep the first candidate for each resolved URL, dropping later ones. -/
def dedupFirst (seen : List GoStr) : List FileLink → List FileLink
  | [] => []
  | l :: rest =>
    if l.url ∈ seen then dedupFirst seen rest
    else l :: dedupFirst (l.url :: seen) rest

/-- The error taxonomy of `downloadFile` (main.go:340). -/
inductive DLErr where
  | reqFailed
  | transport
  | httpStatus (code : Nat)
  | createFailed
  | writeFailed
deriving DecidableEq

/-- Oracle for one download: whether `http.NewRequest` fails, the transport
outcome (`none` = network error, `some s` = response with status `s`), and
whether `os.Create` / `io.Copy` fail. -/
structure HTTPEnv where
  reqErr : Bool
  doRes : Option Nat
  createErr : Bool
  copyErr : Bool
deriving DecidableEq

/-- `downloadFile` (main.go:340): `none` = success, `some e` = the recorded
failure.  The status test is `resp.StatusCode != http.StatusOK`, i.e. 200. -/
def downloadFile (env : HTTPEnv) : Option DLErr :=
  if env.reqErr then some DLErr.reqFailed
  else match env.doRes with
    | none => some DLErr.transport
    | some status =>
      if status ≠ 200 then some (DLErr.httpStatus status)
      else if env.createErr then some DLErr.createFailed
      else if env.copyErr then some DLErr.writeFailed
      else none

/-- The failure condition claimed by the spec for C4: transport error, or a
status outside the 2xx success range, or a local create/write error. -/
def specFailCond (env : HTTPEnv) : Bool :=
  (match env.doRes with
   | none => true
   | some s => !(decide (200 ≤ s ∧ s < 300))) ||
  env.createErr || env.copyErr

/-- The error taxonomy of `extractLinks` before the anchor loop. -/
inductive ExtErr where
  | badRequest
  | network
  | httpStatus (code : Nat)
  | parseFailed
  | badBase
  | invalidPattern
deriving DecidableEq

/-- Observable network effect of the extraction phase. -/
inductive FetchEvent where
  | pageGet
deriving DecidableEq

/-- Oracle for the extraction phase: `http.NewRequest` failure, transport
outcome, `goquery` parse result, `url.Parse(config.URL)` result (as the
href-resolution capability it yields), and the `regexp.Compile` oracle. -/
structure PageOracle where
  reqErr : Bool
  doRes : Option Nat
  parsed : Option (List Anchor)
  base : Option (GoStr → Option GoURL)
  compile : GoStr → Option (GoStr → Bool)

/-- The configuration fields `extractLinks` reads. -/
structure ExtractConfig where
  includePat : GoStr
  all : Bool
  exts : List GoStr

/-- `extractLinks` (main.go:134) with its sequencing made explicit: the list
of network events performed, and the outcome.  The GET (`client.Do`) is
issued before the body is parsed, before the base URL is parsed, and before
the include pattern is compiled — exactly the source order.  The inner
`Option` is `none` when the anchor loop panics. -/
def extractLinksRun (cfg : ExtractConfig) (o : PageOracle) :
    List FetchEvent × Except ExtErr (Option (List FileLink)) :=
  if o.reqErr then ([], Except.error ExtErr.badRequest)
  else match o.doRes with
    | none => ([FetchEvent.pageGet], Except.error ExtErr.network)
    | some status =>
      if status ≠ 200 then
        ([FetchEvent.pageGet], Except.error (ExtErr.httpStatus status))
      else match o.parsed with
        | none => ([FetchEvent.pageGet], Except.error ExtErr.parseFailed)
        | some anchors =>
          match o.base with
          | none => ([FetchEvent.pageGet], Except.error ExtErr.badBase)
          | some resolve =>
            if cfg.includePat = [] then
              ([FetchEvent.pageGet],
               Except.ok (extractCore resolve ⟨cfg.all, cfg.exts, none⟩ anchors []))
            else match o.compile cfg.includePat with
              | none => ([FetchEvent.pageGet], Except.error ExtErr.invalidPattern)
              | some m =>
                ([FetchEvent.pageGet],
                 Except.ok (extractCore resolve ⟨cfg.all, cfg.exts, some m⟩ anchors []))

/-- Observable steps of `main` after a successful extraction (main.go:52). -/
inductive MainStep where
  | printNoMatch
  | printList (count : Nat)
  | mkdirOut
  | runDownloads
deriving DecidableEq

/-- The control flow of `main` after `extractLinks` succeeds (main.go:52):
steps performed and the process exit status.  `mkdirOk` is the
`os.MkdirAll` oracle. -/
def mainAfterExtract (links : List FileLink) (listOnly mkdirOk : Bool) :
    List MainStep × Nat :=
  if links.length = 0 then ([MainStep.printNoMatch], 0)
  else if listOnly then ([MainStep.printList links.length], 0)
  else if mkdirOk then
    ([MainStep.printList links.length, MainStep.mkdirOut, MainStep.runDownloads], 0)
  else ([MainStep.printList links.length, MainStep.mkdirOut], 1)

-- quick sanity checks of the embedding on concrete inputs
example : goExt (goStr "a.pdf") = goStr ".pdf" := by decide
example : goExt (goStr "file") = [] := by decide
example : goStem (goStr "file.pdf") = goStr "file" := by decide
example : sanitizeFilename (goStr "Report One") = some (goStr "Report_One") := by decide
example : sanitizeFilename (goStr " ..__ ") = some (goStr "unnamed") := by decide
example : sanitizeFilename (goStr "a<b>c") = some (goStr "a_b_c") := by decide
example : natBytes 2 = goStr "2" := by decide
example : natBytes 210 = goStr "210" := by decide
example : suffixName (goStr "file") 2 (goStr ".pdf") = goStr "file_2.pdf" := by decide
example :
    allocRun [] [goStr "file.pdf", goStr "file.pdf", goStr "file_2.pdf"] (fun _ => 0) =
      [goStr "file.pdf", goStr "file_2.pdf", goStr "file_2.pdf"] := by decide
example : knownExtMatch (goStr "/x.zip") = true := by decide
example : knownExtMatch (goStr "/x.html") = false := by decide
example : parseExts (goStr "pdf,docx") = [goStr ".pdf", goStr ".docx"] := by decide
example :
    extractCore (fun h => if h = goStr "/a.pdf" then
        some ⟨goStr "http://example.com/a.pdf", goStr "/a.pdf"⟩ else none)
      ⟨false, parseExts (goStr "pdf,xlsx,xls,xlsm"), none⟩
      [⟨goStr "/a.pdf", goStr "Report One"⟩, ⟨goStr "/a.pdf", goStr "Duplicate"⟩] [] =
      some [⟨goStr "Report_One.pdf", goStr "http://example.com/a.pdf"⟩] := by decide
example : downloadFile ⟨false, some 201, false, false⟩ = some (DLErr.httpStatus 201) := by decide
example : specFailCond ⟨false, some 201, false, false⟩ = false := by decide

/-! ### Decimal representation: round trip and injectivity -/

theorem bytesVal_append (xs : GoStr) (d : Nat) :
    bytesVal (xs ++ [d]) = 10 * bytesVal xs + (d - 48) := by
  simp [bytesVal, List.foldl_append]

theorem bytesVal_natBytesAux :
    ∀ (fuel n : Nat), n < fuel → bytesVal (natBytesAux fuel n) = n := by
  intro fuel
  induction fuel with
  | zero => intro n h; exact absurd h (Nat.not_lt_zero n)
  | succ f ih =>
    intro n h
    by_cases h10 : n < 10
    · simp only [natBytesAux, if_pos h10]
      simp [bytesVal]
    · have hlt : n / 10 < f := by
        have : n / 10 < n := Nat.div_lt_self (by omega) (by omega)
        omega
      simp only [natBytesAux, if_neg h10]
      rw [bytesVal_append, ih (n / 10) hlt]
      omega

theorem bytesVal_natBytes (n : Nat) : bytesVal (natBytes n) = n :=
  bytesVal_natBytesAux (n + 1) n (Nat.lt_succ_self n)

theorem natBytes_inj : Function.Injective natBytes := by
  intro i j h
  have := bytesVal_natBytes i
  rw [h, bytesVal_natBytes] at this
  omega

theorem natBytes_length_pos (n : Nat) : 0 < (natBytes n).length := by
  unfold natBytes natBytesAux
  by_cases h10 : n < 10
  · simp [h10]
  · simp [h10]

theorem suffixName_inj (stem ext : GoStr) :
    Function.Injective (fun i => suffixName stem i ext) := by
  intro i j h
  simp only [suffixName] at h
  have h0 : (95 :: natBytes i) ++ ext = (95 :: natBytes j) ++ ext := by
    have hd := congrArg (List.drop stem.length) h
    simpa [List.drop_left] using hd
  have h1 : (95 : Nat) :: natBytes i = 95 :: natBytes j := List.append_cancel_right h0
  have h2 : natBytes i = natBytes j := by injection h1
  exact natBytes_inj h2

theorem suffixName_length (stem ext : GoStr) (i : Nat) :
    (suffixName stem i ext).length =
      stem.length + 1 + (natBytes i).length + ext.length := by
  simp [suffixName]
  omega

theorem goStem_goExt_length (s : GoStr) :
    (goStem s).length + (goExt s).length = s.length := by
  have h := congrArg List.length (List.take_append_drop (s.length - goExtLen s) s)
  simp only [List.length_append] at h
  simp only [goStem, goExt]
  exact h

theorem suffixName_ne_self (s : GoStr) (i : Nat) :
    suffixName (goStem s) i (goExt s) ≠ s := by
  intro h
  have hlen := congrArg List.length h
  rw [suffixName_length] at hlen
  have h1 := goStem_goExt_length s
  have h2 := natBytes_length_pos i
  omega

/-! ### Termination and soundness of the numbered search -/

theorem searchLoop_not_mem (dir : List GoStr) (stem ext : GoStr) :
    ∀ (fuel i : Nat) (r : GoStr),
      searchLoop dir stem ext fuel i = some r → r ∉ dir := by
  intro fuel
  induction fuel with
  | zero => intro i r h; exact absurd h (by simp [searchLoop])
  | succ f ih =>
    intro i r h
    simp only [searchLoop] at h
    by_cases hc : dir.contains (suffixName stem i ext)
    · rw [if_pos hc] at h
      exact ih (i + 1) r h
    · rw [if_neg hc] at h
      injection h with h
      subst h
      exact fun hmem => hc (List.elem_iff.mpr hmem)

theorem searchLoop_succeeds (dir : List GoStr) (stem ext : GoStr) :
    ∀ (fuel i : Nat),
      (∃ k, k < fuel ∧ dir.contains (suffixName stem (i + k) ext) = false) →
      ∃ r, searchLoop dir stem ext fuel i = some r := by
  intro fuel
  induction fuel with
  | zero => intro i ⟨k, hk, _⟩; exact absurd hk (Nat.not_lt_zero k)
  | succ f ih =>
    intro i ⟨k, hk, hfree⟩
    simp only [searchLoop]
    by_cases hc : dir.contains (suffixName stem i ext)
    · rw [if_pos hc]
      rcases k with _ | k'
      · rw [Nat.add_zero] at hfree
        rw [hfree] at hc
        cases hc
      · refine ih (i + 1) ⟨k', by omega, ?_⟩
        have : i + 1 + k' = i + (k' + 1) := by omega
        rw [this]
        exact hfree
    · rw [if_neg hc]
      exact ⟨suffixName stem i ext, rfl⟩

theorem exists_free_index (dir : List GoStr) (stem ext : GoStr) (i : Nat) :
    ∃ k, k ≤ dir.length ∧ dir.contains (suffixName stem (i + k) ext) = false := by
  by_contra hall
  push_neg at hall
  have hmem : ∀ k, k ≤ dir.length → suffixName stem (i + k) ext ∈ dir := by
    intro k hk
    have := hall k hk
    have hb : dir.contains (suffixName stem (i + k) ext) = true := by
      cases hb : dir.contains (suffixName stem (i + k) ext)
      · exact absurd hb this
      · rfl
    exact List.elem_iff.mp hb
  set L := (List.range (dir.length + 1)).map (fun k => suffixName stem (i + k) ext) with hL
  have hnodup : L.Nodup := by
    refine (List.nodup_range (dir.length + 1)).map ?_
    intro a b hab
    have : i + a = i + b := suffixName_inj stem ext hab
    omega
  have hlen : L.length = dir.length + 1 := by simp [hL]
  have hsub : L.toFinset ⊆ dir.toFinset := by
    intro x hx
    rw [List.mem_toFinset] at hx ⊢
    rw [hL] at hx
    rcases List.mem_map.mp hx with ⟨k, hkmem, rfl⟩
    exact hmem k (Nat.le_of_lt_succ (List.mem_range.mp hkmem))
  have hcard : L.toFinset.card = dir.length + 1 := by
    rw [List.toFinset_card_of_nodup hnodup, hlen]
  have : dir.length + 1 ≤ dir.length :=
    hcard ▸ (Finset.card_le_card hsub).trans (List.toFinset_card_le dir)
  omega

/-! ### The anchor loop: deduplication and first-occurrence-wins -/

theorem processAnchor_skip (resolve : GoStr → Option GoURL) (crit : Criteria)
    (a : Anchor) (seen : List GoStr)
    (h : processAnchor resolve crit a seen = some none) :
    totalCandidate resolve crit a = none ∨
      ∃ l, totalCandidate resolve crit a = some l ∧ l.url ∈ seen := by
  unfold processAnchor at h
  unfold totalCandidate
  cases hu : anchorURL resolve a with
  | none => exact Or.inl rfl
  | some u =>
    rw [hu] at h
    dsimp only at h ⊢
    by_cases hseen : u.full ∈ seen
    · by_cases hpf : passFilter crit u
      · exact Or.inr ⟨⟨(deriveName a u).getD [], u.full⟩, by rw [if_pos hpf], hseen⟩
      · exact Or.inl (by rw [if_neg hpf])
    · rw [if_neg hseen] at h
      by_cases hpf : passFilter crit u
      · rw [if_pos hpf] at h
        cases hd : deriveName a u with
        | none => rw [hd] at h; simp at h
        | some nm => rw [hd] at h; simp at h
      · exact Or.inl (by rw [if_neg hpf])

theorem processAnchor_accept (resolve : GoStr → Option GoURL) (crit : Criteria)
    (a : Anchor) (seen : List GoStr) (l : FileLink)
    (h : processAnchor resolve crit a seen = some (some l)) :
    totalCandidate resolve crit a = some l ∧ l.url ∉ seen := by
  unfold processAnchor at h
  unfold totalCandidate
  cases hu : anchorURL resolve a with
  | none => rw [hu] at h; simp at h
  | some u =>
    rw [hu] at h
    dsimp only at h ⊢
    by_cases hseen : u.full ∈ seen
    · rw [if_pos hseen] at h; simp at h
    · rw [if_neg hseen] at h
      by_cases hpf : passFilter crit u
      · rw [if_pos hpf] at h
        cases hd : deriveName a u with
        | none => rw [hd] at h; simp at h
        | some nm =>
          rw [hd] at h
          simp only [Option.some.injEq] at h
          subst h
          rw [if_pos hpf]
          exact ⟨rfl, hseen⟩
      · rw [if_neg hpf] at h; simp at h

theorem extractCore_spec (resolve : GoStr → Option GoURL) (crit : Criteria) :
    ∀ (anchors : List Anchor) (seen : List GoStr) (links : List FileLink),
      extractCore resolve crit anchors seen = some links →
      links = dedupFirst seen (anchors.filterMap (totalCandidate resolve crit)) ∧
      (∀ l ∈ links, l.url ∉ seen) ∧
      (links.map (fun l => l.url)).Nodup := by
  intro anchors
  induction anchors with
  | nil =>
    intro seen links h
    simp only [extractCore] at h
    injection h with h
    subst h
    simp [dedupFirst]
  | cons a rest ih =>
    intro seen links h
    simp only [extractCore] at h
    cases hpa : processAnchor resolve crit a seen with
    | none => rw [hpa] at h; simp at h
    | some o =>
      rw [hpa] at h
      cases o with
      | none =>
        dsimp only at h
        obtain ⟨e1, e2, e3⟩ := ih seen links h
        refine ⟨?_, e2, e3⟩
        rw [List.filterMap_cons]
        rcases processAnchor_skip resolve crit a seen hpa with htc | ⟨l, htc, hmem⟩
        · rw [htc]; exact e1
        · rw [htc]
          simp only [dedupFirst, if_pos hmem]
          exact e1
      | some l =>
        dsimp only at h
        cases hrec : extractCore resolve crit rest (l.url :: seen) with
        | none => rw [hrec] at h; simp at h
        | some ls =>
          rw [hrec] at h
          simp only [Option.map_some'] at h
          injection h with h
          subst h
          obtain ⟨e1, e2, e3⟩ := ih (l.url :: seen) ls hrec
          obtain ⟨htc, hnot⟩ := processAnchor_accept resolve crit a seen l hpa
          refine ⟨?_, ?_, ?_⟩
          · rw [List.filterMap_cons, htc]
            simp only [dedupFirst, if_neg hnot]
            rw [← e1]
          · intro x hx
            rcases List.mem_cons.mp hx with hxl | hx'
            · rw [hxl]; exact hnot
            · intro hxseen
              exact (e2 x hx') (List.mem_cons_of_mem _ hxseen)
          · rw [List.map_cons]
            refine List.nodup_cons.mpr ⟨?_, e3⟩
            intro hmem
            rcases List.mem_map.mp hmem with ⟨y, hy, hyu⟩
            exact (e2 y hy) (hyu ▸ List.mem_cons_self _ _)

/-! ### Allocation sequences against an empty directory -/

theorem getUnique_empty_zero (name : GoStr) (used : GoStr → Nat)
    (h : used name = 0) :
    getUniqueFilename [] name used = (name, bump used name) := by
  simp [getUniqueFilename, h, List.contains]

theorem getUnique_empty_pos (name : GoStr) (used : GoStr → Nat) (c : Nat)
    (h : used name = c + 1) :
    getUniqueFilename [] name used =
      (suffixName (goStem name) (c + 2) (goExt name), bump used name) := by
  simp [getUniqueFilename, h, searchLoop, List.contains]

theorem allocRun_replicate_pos (name : GoStr) :
    ∀ (k : Nat) (used : GoStr → Nat) (c : Nat), used name = c + 1 →
      allocRun [] (List.replicate k name) used =
        (List.range' (c + 2) k).map
          (fun i => suffixName (goStem name) i (goExt name)) := by
  intro k
  induction k with
  | zero => intro used c h; simp [allocRun]
  | succ k' ih =>
    intro used c h
    rw [List.replicate_succ]
    simp only [allocRun, getUnique_empty_pos name used c h]
    rw [ih (bump used name) (c + 1) (by simp [bump, h])]
    have harith : c + 1 + 2 = c + 2 + 1 := by omega
    rw [harith, List.range'_succ, List.map_cons]

/-- C6: any number of allocation requests for the same desired name against
an initially empty directory return pairwise distinct names, and the first
request returns the desired name unchanged. -/
theorem c6_same_name_allocations (name : GoStr) (k : Nat) :
    (allocRun [] (List.replicate (k + 1) name) (fun _ => 0)).Nodup ∧
    (allocRun [] (List.replicate (k + 1) name) (fun _ => 0)).head? = some name := by
  have hshape : allocRun [] (List.replicate (k + 1) name) (fun _ => 0) =
      name :: (List.range' 2 k).map
        (fun i => suffixName (goStem name) i (goExt name)) := by
    rw [List.replicate_succ]
    simp only [allocRun, getUnique_empty_zero name (fun _ => 0) rfl]
    rw [allocRun_replicate_pos name k (bump (fun _ => 0) name) 0 (by simp [bump])]
  rw [hshape]
  refine ⟨List.nodup_cons.mpr ⟨?_, ?_⟩, rfl⟩
  · intro hmem
    rcases List.mem_map.mp hmem with ⟨i, _, hi⟩
    exact suffixName_ne_self name i hi
  · exact (List.nodup_range' 2 k).map (suffixName_inj (goStem name) (goExt name))

/-- C9: the unbounded numbered search of `getUniqueFilename` terminates for
every directory content, stem/extension and starting index: within
`dir.length + 1` probes it reaches a suffixed name referring to no existing
file, and the name it returns is not in the directory. -/
theorem c9_numbered_search_terminates (dir : List GoStr) (stem ext : GoStr)
    (start : Nat) :
    ∃ r, searchLoop dir stem ext (dir.length + 1) start = some r ∧ r ∉ dir := by
  obtain ⟨k, hk, hfree⟩ := exists_free_index dir stem ext start
  obtain ⟨r, hr⟩ := searchLoop_succeeds dir stem ext (dir.length + 1) start
    ⟨k, by omega, hfree⟩
  exact ⟨r, hr, searchLoop_not_mem dir stem ext (dir.length + 1) start r hr⟩

/-! ### The claims -/

/-- C1: the claim fails on the code.  Against an empty output directory, with
no download completed yet (so no file on disk at any check), the serialized
allocation requests for desired names `file.pdf`, `file.pdf`, `file_2.pdf`
are handed `file.pdf`, `file_2.pdf`, `file_2.pdf`: the third request's
desired name equals the suffixed name generated for the second, the counter
for base `file_2.pdf` is still 0 and the disk check sees no file, so the same
final name is handed out twice — the names are not pairwise distinct. -/
theorem c1_collision_at_failing_input :
    allocRun [] [goStr "file.pdf", goStr "file.pdf", goStr "file_2.pdf"]
        (fun _ => 0) =
      [goStr "file.pdf", goStr "file_2.pdf", goStr "file_2.pdf"] ∧
    ¬ (allocRun [] [goStr "file.pdf", goStr "file.pdf", goStr "file_2.pdf"]
        (fun _ => 0)).Nodup := by
  refine ⟨by decide, ?_⟩
  intro h
  rw [show allocRun [] [goStr "file.pdf", goStr "file.pdf", goStr "file_2.pdf"]
      (fun _ => 0) =
      [goStr "file.pdf", goStr "file_2.pdf", goStr "file_2.pdf"] from by decide] at h
  exact absurd h (by decide)

/-- The input on which `sanitizeFilename` panics: `b.` followed by 250 `a`
bytes.  Nothing is replaced, collapsed or trimmed, the length is 252 > 200,
and the extension from the last dot is 251 bytes long, so the Go slice
`name[:200-len(ext)]` has a negative bound. -/
def c2FailingInput : GoStr := 98 :: 46 :: List.replicate 250 97

set_option maxRecDepth 4000 in
/-- C2: the claim fails on the code.  `sanitizeFilename` is not total: on
`c2FailingInput` (extension longer than 200 bytes) the Go code panics with a
slice-bounds-out-of-range runtime error, modelled as `none`. -/
theorem c2_panic_at_failing_input : sanitizeFilename c2FailingInput = none := by
  decide

/-- C3: for every resolution oracle, filter criteria and anchor list, when the
anchor loop completes (no sanitizer panic) the candidate list has pairwise
distinct resolved URLs, and equals the per-anchor candidates deduplicated by
resolved URL keeping the first occurrence in document order. -/
theorem c3_dedup_first_wins (resolve : GoStr → Option GoURL) (crit : Criteria)
    (anchors : List Anchor) (links : List FileLink)
    (h : extractCore resolve crit anchors [] = some links) :
    (links.map (fun l => l.url)).Nodup ∧
    links = dedupFirst [] (anchors.filterMap (totalCandidate resolve crit)) := by
  obtain ⟨e1, _, e3⟩ := extractCore_spec resolve crit anchors [] links h
  exact ⟨e3, e1⟩

/-- Witness for C3 at a concrete input: two anchors resolving to the same
URL yield one candidate, the one derived from the first anchor. -/
theorem c3_dedup_first_wins_witness :
    ((([⟨goStr "x.pdf", goStr "/a.pdf"⟩] : List FileLink).map
        (fun l => l.url)).Nodup) ∧
    ([⟨goStr "x.pdf", goStr "/a.pdf"⟩] : List FileLink) =
      dedupFirst []
        (([⟨goStr "/a.pdf", goStr "x"⟩, ⟨goStr "/a.pdf", goStr "y"⟩] :
            List Anchor).filterMap
          (totalCandidate (fun h => some ⟨h, h⟩) ⟨true, [], none⟩)) :=
  c3_dedup_first_wins (fun h => some ⟨h, h⟩) ⟨true, [], none⟩
    [⟨goStr "/a.pdf", goStr "x"⟩, ⟨goStr "/a.pdf", goStr "y"⟩]
    [⟨goStr "x.pdf", goStr "/a.pdf"⟩] (by decide)

/-- The download environment refuting C4 as stated: a 201 Created response
with no transport, create or write error. -/
def status201Env : HTTPEnv := ⟨false, some 201, false, false⟩

/-- C4 counterexample: on a 201 response the claimed failure condition
(transport error, non-2xx status, or create/write error) is false, yet
`downloadFile` records a failure — the claimed iff is false at this input. -/
theorem c4_counterexample :
    (downloadFile status201Env).isSome = true ∧
    specFailCond status201Env = false := by decide

/-- C4 amended: a download is recorded as successful iff no request error
occurred, the HTTP status is exactly 200 (not any other 2xx), and the local
create and write both succeed; equivalently failure is recorded iff a
request/transport error occurs, the status differs from 200, or a local
file-create/write error occurs. -/
theorem c4_amended_outcome_iff (env : HTTPEnv) :
    downloadFile env = none ↔
      env.reqErr = false ∧ env.doRes = some 200 ∧
      env.createErr = false ∧ env.copyErr = false := by
  rcases env with ⟨req, dor, ce, cp⟩
  cases req
  · cases dor with
    | none => simp [downloadFile]
    | some s =>
      by_cases hs : s = 200
      · subst hs
        cases ce <;> cases cp <;> simp [downloadFile]
      · simp [downloadFile, hs]
  · simp [downloadFile]

/-- The configuration and oracle refuting C5 as stated: an include pattern
that fails to compile, while the page request itself succeeds. -/
def invalidPatternCfg : ExtractConfig := ⟨goStr "(", false, []⟩

/-- Page oracle for the C5 counterexample: transport succeeds with status
200, the body parses to an empty anchor list, the base URL parses, and the
regex compiler rejects every pattern. -/
def invalidPatternOracle : PageOracle :=
  ⟨false, some 200, some [], some (fun _ => none), fun _ => none⟩

/-- C5 counterexample: with an invalid include pattern the extraction does
fail with the invalid-pattern error, but the HTTP GET for the page has been
performed — the failure does not occur before the page fetch, refuting the
claim at this input. -/
theorem c5_counterexample :
    FetchEvent.pageGet ∈ (extractLinksRun invalidPatternCfg invalidPatternOracle).1 ∧
    (extractLinksRun invalidPatternCfg invalidPatternOracle).2 =
      Except.error ExtErr.invalidPattern := by
  refine ⟨?_, rfl⟩
  show FetchEvent.pageGet ∈ [FetchEvent.pageGet]
  exact List.mem_singleton.mpr rfl

/-- C5 amended: if the include pattern is set and fails to compile while the
earlier steps succeed (request built, 200 response, body parsed, base URL
parsed), the extraction as a whole fails with the invalid-pattern error —
but only after the page GET has been issued (the fetch happens first). -/
theorem c5_amended_invalid_pattern (cfg : ExtractConfig) (o : PageOracle)
    (anchors : List Anchor) (r : GoStr → Option GoURL)
    (h1 : o.reqErr = false) (h2 : o.doRes = some 200)
    (h3 : o.parsed = some anchors) (h4 : o.base = some r)
    (h5 : cfg.includePat ≠ []) (h6 : o.compile cfg.includePat = none) :
    extractLinksRun cfg o =
      ([FetchEvent.pageGet], Except.error ExtErr.invalidPattern) := by
  simp [extractLinksRun, h1, h2, h3, h4, h5, h6]

/-- Witness for C5 amended at a concrete configuration and oracle. -/
theorem c5_amended_invalid_pattern_witness :
    extractLinksRun ⟨goStr "(", false, []⟩
        ⟨false, some 200, some [], some (fun _ => none), fun _ => none⟩ =
      ([FetchEvent.pageGet], Except.error ExtErr.invalidPattern) :=
  c5_amended_invalid_pattern ⟨goStr "(", false, []⟩
    ⟨false, some 200, some [], some (fun _ => none), fun _ => none⟩
    [] (fun _ => none) rfl rfl rfl rfl (by decide) rfl

/-- The criteria produced by `--ext pdf,docx`. -/
def extListCrit : Criteria := ⟨false, parseExts (goStr "pdf,docx"), none⟩

/-- The criteria of `--all` mode. -/
def allModeCrit : Criteria := ⟨true, [], none⟩

/-- C7: with extension list `pdf,docx`, paths ending `.pdf`, `.PDF`, `.docx`
pass the filter and `.txt`, `.pdfx` are rejected; in all mode `.zip` passes
and `.html` is rejected. -/
theorem c7_extension_filter_cases :
    passFilter extListCrit ⟨goStr "http://e/a.pdf", goStr "/a.pdf"⟩ = true ∧
    passFilter extListCrit ⟨goStr "http://e/a.PDF", goStr "/a.PDF"⟩ = true ∧
    passFilter extListCrit ⟨goStr "http://e/a.docx", goStr "/a.docx"⟩ = true ∧
    passFilter extListCrit ⟨goStr "http://e/a.txt", goStr "/a.txt"⟩ = false ∧
    passFilter extListCrit ⟨goStr "http://e/a.pdfx", goStr "/a.pdfx"⟩ = false ∧
    passFilter allModeCrit ⟨goStr "http://e/a.zip", goStr "/a.zip"⟩ = true ∧
    passFilter allModeCrit ⟨goStr "http://e/a.html", goStr "/a.html"⟩ = false := by
  decide

/-- `net/url` resolution of the absolute-path reference `/a.pdf` against the
base `http://example.com/page` (library behaviour, outside the repository:
an absolute path replaces the base path, keeping scheme and host). -/
def c8Resolve : GoStr → Option GoURL := fun h =>
  if h = goStr "/a.pdf" then
    some ⟨goStr "http://example.com/a.pdf", goStr "/a.pdf"⟩
  else none

/-- The criteria produced by the default `--ext pdf,xlsx,xls,xlsm`. -/
def defaultExtCrit : Criteria := ⟨false, parseExts (goStr "pdf,xlsx,xls,xlsm"), none⟩

/-- C8: a page with exactly the anchors `<a href="/a.pdf">Report One</a>` and
`<a href="/a.pdf">Duplicate</a>` under default criteria yields exactly one
candidate, named `Report_One.pdf` (trimmed, whitespace collapsed to `_`,
detected extension appended). -/
theorem c8_end_to_end_one_candidate :
    extractCore c8Resolve defaultExtCrit
        [⟨goStr "/a.pdf", goStr "Report One"⟩, ⟨goStr "/a.pdf", goStr "Duplicate"⟩]
        [] =
      some [⟨goStr "Report_One.pdf", goStr "http://example.com/a.pdf"⟩] := by
  decide

/-- C10: when extraction succeeds with zero candidates, `main` prints the
no-matching-files message and exits with status 0, performing neither the
directory creation nor any download, whatever the list-only flag and the
mkdir oracle say. -/
theorem c10_no_candidates_no_effects (listOnly mkdirOk : Bool) :
    mainAfterExtract [] listOnly mkdirOk = ([MainStep.printNoMatch], 0) ∧
    MainStep.mkdirOut ∉ (mainAfterExtract [] listOnly mkdirOk).1 ∧
    MainStep.runDownloads ∉ (mainAfterExtract [] listOnly mkdirOk).1 := by
  refine ⟨rfl, ?_, ?_⟩
  · show MainStep.mkdirOut ∉ [MainStep.printNoMatch]
    decide
  · show MainStep.runDownloads ∉ [MainStep.printNoMatch]
    decide
